import Mathlib

/-!
Verification of the board-game-timer server core (src/server/index.ts).

The game-state engine of the server is embedded shallowly:

* JS numbers holding millisecond counts are modelled as `Int` (all time
  arithmetic in the source is on integral millisecond values:
  `Date.now()` returns integral milliseconds and the default limit
  `1.2 * 60 * 1000` evaluates to exactly `72000`).
* Mutation of the per-room `GameState` record becomes explicit state
  passing: each handler maps a `GameState` to a new `GameState`.
* Indexing `players[i]` followed by a member access on the result throws
  a `TypeError` in JS when `i` is out of bounds; fallible operations
  therefore return `Option GameState`, with `none` marking such a fault.
* Each handler invocation reads `Date.now()`; the instant is passed in
  as an explicit `now` parameter (a single handler body observes one
  instant).
-/

/-- A player, as in the `Player` interface of the source: a connection id,
a join name, and the remaining time in milliseconds. -/
structure Player where
  id : String
  name : String
  remainingTime : Int
  deriving Repr, DecidableEq

/-- Per-room game state, as in the `GameState` interface of the source.
`currentPlayerIndex` is an `Int` because the source can in principle store
the `-1` returned by `findIndex` into it. -/
structure GameState where
  players : List Player
  currentPlayerIndex : Int
  lastTickTimestamp : Int
  running : Bool
  timeLimit : Int
  windex : Int
  deriving Repr, DecidableEq

/-- `TIMER_LIMIT * 60 * 1000` from the source; `1.2 * 60 * 1000` evaluates
to exactly `72000` in JS double arithmetic. -/
def TIME_LIMIT : Int := 72000

/-- JS array indexing `ps[i]`: `some` element when `0 <= i < length`,
`none` (i.e. `undefined`) otherwise. -/
def getp (ps : List Player) (i : Int) : Option Player :=
  if h : 0 ≤ i ∧ i.toNat < ps.length then some (ps.get ⟨i.toNat, h.2⟩) else none

/-- `createGameState` from the source. -/
def createGameState (timeLimit : Int) (now : Int) : GameState :=
  { players := []
    currentPlayerIndex := 0
    lastTickTimestamp := now
    running := false
    timeLimit := timeLimit
    windex := -1 }

/-- `updateCurrentPlayerTime` from the source.  When the clock is not
running it returns the state unchanged.  Otherwise it deducts the elapsed
time since `lastTickTimestamp` from the current player, floored at zero,
stamps `lastTickTimestamp = now`, and rotates `currentPlayerIndex`
round-robin when the current player just reached zero.  Accessing
`players[currentPlayerIndex].remainingTime` with an out-of-range index
would throw in JS, modelled by `none`. -/
def updateCurrentPlayerTime (gs : GameState) (now : Int) : Option GameState :=
  if gs.running = false then some gs else
    let elapsed := now - gs.lastTickTimestamp
    match getp gs.players gs.currentPlayerIndex with
    | none => none
    | some cp =>
      let newRT := max 0 (cp.remainingTime - elapsed)
      let players1 := gs.players.set gs.currentPlayerIndex.toNat { cp with remainingTime := newRT }
      let gs1 := { gs with players := players1, lastTickTimestamp := now }
      if newRT ≤ 0 then
        some { gs1 with currentPlayerIndex := (gs.currentPlayerIndex + 1) % (players1.length : Int) }
      else
        some gs1

/-- `isGameOver` from the source: at most one player has positive
remaining time. -/
def isGameOver (gs : GameState) : Bool :=
  decide ((gs.players.filter fun p => decide (0 < p.remainingTime)).length ≤ 1)

/-- Number of players with positive remaining time (the quantity
`isGameOver` filters for). -/
def aliveCount (ps : List Player) : Nat :=
  (ps.filter fun p => decide (0 < p.remainingTime)).length

/-- `handleTap` from the source: first settles owed time via
`updateCurrentPlayerTime`; a tap on a stopped clock starts it; a tap on a
running clock rotates the turn only when the tapping player is the
current player. -/
def handleTap (gs : GameState) (playerId : String) (now : Int) : Option GameState :=
  match updateCurrentPlayerTime gs now with
  | none => none
  | some gs1 =>
    if gs1.running = false then
      some { gs1 with running := true, windex := -1, lastTickTimestamp := now }
    else
      match getp gs1.players gs1.currentPlayerIndex with
      | none => none
      | some cp =>
        if cp.id = playerId then
          some { gs1 with
                  currentPlayerIndex := (gs1.currentPlayerIndex + 1) % ((gs1.players.length : Int))
                  lastTickTimestamp := now }
        else
          some gs1

/-- JS `Array.prototype.findIndex`: index of the first element satisfying
the predicate, `-1` when none does. -/
def findIndexJS (pred : Player → Bool) : List Player → Int
  | [] => -1
  | p :: ps =>
    if pred p then 0
    else if findIndexJS pred ps = -1 then -1 else findIndexJS pred ps + 1

/-- The winner computation of the tick sweep:
`players.findIndex((p) => p.remainingTime >= 1)`. -/
def findWinnerIndex (ps : List Player) : Int :=
  findIndexJS (fun p => decide (1 ≤ p.remainingTime)) ps

/-- One room's share of the `setInterval` tick sweep from the source: a
running room is advanced; if the game is then over, the clock stops and
both `currentPlayerIndex` and `windex` receive the `findIndex` winner.
A non-running room is skipped (and not broadcast). -/
def tickRoom (gs : GameState) (now : Int) : Option GameState :=
  if gs.running = true then
    match updateCurrentPlayerTime gs now with
    | none => none
    | some gs1 =>
      if isGameOver gs1 = true then
        some { gs1 with
                running := false
                currentPlayerIndex := findWinnerIndex gs1.players
                windex := findWinnerIndex gs1.players }
      else some gs1
  else some gs

/-- The game-state effect of the `joinRoom` message branch on an existing
room: every player already named `username` has its id rebound to the new
connection id; if none is, a fresh player is appended with
`remainingTime := TIME_LIMIT` (the global constant, not the room's
`timeLimit`). -/
def joinApply (gs : GameState) (username : String) (playerId : String) : GameState :=
  let found := gs.players.any fun p => p.name == username
  let ps := gs.players.map fun p => if p.name == username then { p with id := playerId } else p
  if found then { gs with players := ps }
  else { gs with players := ps ++ [{ id := playerId, name := username, remainingTime := TIME_LIMIT }] }

/-- The game-state effect of the `tap` message branch: `handleTap`, then
the clock is stopped if the game is over. -/
def tapBranch (gs : GameState) (playerId : String) (now : Int) : Option GameState :=
  match handleTap gs playerId now with
  | none => none
  | some gs1 => some (if isGameOver gs1 = true then { gs1 with running := false } else gs1)

/-- The game-state effect of the `reset` message branch: stop the clock,
restore every player's time to the room's `timeLimit`, and set `windex`
to the current player index. -/
def resetBranch (gs : GameState) : GameState :=
  { gs with
      running := false
      players := gs.players.map fun p => { p with remainingTime := gs.timeLimit }
      windex := gs.currentPlayerIndex }

/-- The game-state effect of the `changeTime` message branch: stop the
clock, install the new limit, reset every player's time to it, and clear
`windex` to the sentinel. -/
def changeTimeBranch (gs : GameState) (time : Int) : GameState :=
  { gs with
      running := false
      timeLimit := time
      players := gs.players.map fun p => { p with remainingTime := time }
      windex := -1 }

/-- Game states reachable through the server's message handlers and tick
sweep.  A room is born inside the `joinRoom` branch: `createGameState`
immediately followed by that same join. -/
inductive Reachable : GameState → Prop where
  | create (now : Int) (name pid : String) :
      Reachable (joinApply (createGameState TIME_LIMIT now) name pid)
  | join {gs : GameState} (name pid : String) :
      Reachable gs → Reachable (joinApply gs name pid)
  | tap {gs gs2 : GameState} {pid : String} {now : Int} :
      Reachable gs → tapBranch gs pid now = some gs2 → Reachable gs2
  | reset {gs : GameState} :
      Reachable gs → Reachable (resetBranch gs)
  | changeTime {gs : GameState} (t : Int) :
      Reachable gs → Reachable (changeTimeBranch gs t)
  | tick {gs gs2 : GameState} {now : Int} :
      Reachable gs → tickRoom gs now = some gs2 → Reachable gs2

/-- The state invariant maintained by every handler: the room is
populated, the current player index is in range, and a finished game has
a stopped clock. -/
def StateInv (gs : GameState) : Prop :=
  gs.players ≠ [] ∧
  0 ≤ gs.currentPlayerIndex ∧
  gs.currentPlayerIndex < (gs.players.length : Int) ∧
  (isGameOver gs = true → gs.running = false)

/-- Modelled from the spec (section 4.2): a Turn Controller operation that
"first calls advance(now) to settle owed time before acting" — here the
reset effect preceded by the settlement.  The repository's reset handler
has no such call; this definition exists to compare the two. -/
def resetSettleFirst (gs : GameState) (now : Int) : Option GameState :=
  (updateCurrentPlayerTime gs now).map resetBranch

/-! ## Concrete states used by witnesses and counterexamples -/

/-- Two live players, clock running, last tick at instant 0. -/
def stTwoLive : GameState :=
  ⟨[⟨"pa", "a", 72000⟩, ⟨"pb", "b", 72000⟩], 0, 0, true, 72000, -1⟩

/-- One player at the default limit, clock stopped. -/
def stIdleOne : GameState := ⟨[⟨"pa", "a", 72000⟩], 0, 0, false, 72000, -1⟩

/-- A zero-player room whose clock is (hypothetically) running. -/
def stEmptyRun : GameState := ⟨[], 0, 0, true, 72000, -1⟩

/-- A zero-player room with a stopped clock, as just created. -/
def stEmptyIdle : GameState := ⟨[], 0, 0, false, 72000, -1⟩

/-- Running room where the current player is 5 ms from timing out. -/
def stNearOver : GameState :=
  ⟨[⟨"pa", "a", 5⟩, ⟨"pb", "b", 100⟩], 0, 0, true, 72000, -1⟩

/-- A reachable running room holding negative remaining times: two players
join, `changeTime(-1)` drives their times to -1, two more players join at
the 72000 ms default, and a tap starts the clock (two live players keep
it running). -/
def stNegRun : GameState :=
  ⟨[⟨"pa", "a", -1⟩, ⟨"pb", "b", -1⟩, ⟨"pc", "c", 72000⟩, ⟨"pd", "d", 72000⟩],
    0, 5, true, -1, -1⟩

/-- The room state right after its creating join. -/
def stJoinBase : GameState := joinApply (createGameState TIME_LIMIT 0) "a" "p1"

/-- `stJoinBase` after a `changeTime` to 5000 ms. -/
def stLimitChanged : GameState := changeTimeBranch stJoinBase 5000

example : createGameState TIME_LIMIT 0 = ⟨[], 0, 0, false, 72000, -1⟩ := by decide

example :
    joinApply (createGameState TIME_LIMIT 0) "alice" "p1" =
      ⟨[⟨"p1", "alice", 72000⟩], 0, 0, false, 72000, -1⟩ := by decide

example :
    updateCurrentPlayerTime ⟨[⟨"p1", "a", 72000⟩, ⟨"p2", "b", 72000⟩], 0, 0, true, 72000, -1⟩ 1000 =
      some ⟨[⟨"p1", "a", 71000⟩, ⟨"p2", "b", 72000⟩], 0, 1000, true, 72000, -1⟩ := by decide

example :
    updateCurrentPlayerTime ⟨[⟨"p1", "a", 500⟩, ⟨"p2", "b", 72000⟩], 0, 0, true, 72000, -1⟩ 1000 =
      some ⟨[⟨"p1", "a", 0⟩, ⟨"p2", "b", 72000⟩], 1, 1000, true, 72000, -1⟩ := by decide

example : updateCurrentPlayerTime ⟨[], 0, 0, true, 72000, -1⟩ 5 = none := by decide

example :
    tickRoom ⟨[⟨"p1", "a", 5⟩, ⟨"p2", "b", 100⟩], 0, 0, true, 72000, -1⟩ 10 =
      some ⟨[⟨"p1", "a", 0⟩, ⟨"p2", "b", 100⟩], 1, 10, false, 72000, 1⟩ := by decide

/-! ## List helper lemmas -/

lemma listMapSet {α β : Type} (f : α → β) (l : List α) :
    ∀ (k : Nat) (a : α), (l.set k a).map f = (l.map f).set k (f a) := by
  induction l with
  | nil => intro k a; rfl
  | cons x t ih =>
    intro k a
    cases k with
    | zero => rfl
    | succ n => simp [List.set_cons_succ, ih]

lemma listSetGetSelf {α : Type} (l : List α) :
    ∀ (k : Nat) (h : k < l.length), l.set k (l.get ⟨k, h⟩) = l := by
  induction l with
  | nil => intro k h; simp at h
  | cons x t ih =>
    intro k h
    cases k with
    | zero => rfl
    | succ n =>
      simp only [List.length_cons, List.get_cons_succ, List.set_cons_succ]
      rw [ih n (Nat.lt_of_succ_lt_succ h)]

lemma listMemSet {α : Type} (l : List α) :
    ∀ (k : Nat) (a x : α), x ∈ l.set k a → x ∈ l ∨ x = a := by
  induction l with
  | nil => intro k a x hx; simp [List.set] at hx
  | cons y t ih =>
    intro k a x hx
    cases k with
    | zero =>
      rw [List.set_cons_zero] at hx
      rcases List.mem_cons.mp hx with h | h
      · exact Or.inr h
      · exact Or.inl (List.mem_cons_of_mem _ h)
    | succ n =>
      rw [List.set_cons_succ] at hx
      rcases List.mem_cons.mp hx with h | h
      · exact Or.inl (h ▸ List.mem_cons_self _ _)
      · rcases ih n a x h with h2 | h2
        · exact Or.inl (List.mem_cons_of_mem _ h2)
        · exact Or.inr h2

lemma listMapEqSelf {α : Type} (l : List α) (f : α → α) (h : ∀ x ∈ l, f x = x) :
    l.map f = l := by
  induction l with
  | nil => rfl
  | cons x t ih =>
    simp only [List.map_cons]
    rw [h x (List.mem_cons_self _ _), ih fun y hy => h y (List.mem_cons_of_mem _ hy)]

/-! ## Lemmas about `getp` -/

lemma getp_some_bounds {ps : List Player} {i : Int} {cp : Player}
    (h : getp ps i = some cp) : 0 ≤ i ∧ i.toNat < ps.length := by
  unfold getp at h
  split at h
  · next hb => exact hb
  · exact absurd h (by simp)

lemma getp_some_get {ps : List Player} {i : Int} {cp : Player}
    (h : getp ps i = some cp) (hh : i.toNat < ps.length) :
    ps.get ⟨i.toNat, hh⟩ = cp := by
  unfold getp at h
  split at h
  · exact Option.some.inj h
  · exact absurd h (by simp)

lemma getp_of_bounds {ps : List Player} {i : Int} (h0 : 0 ≤ i)
    (h1 : i.toNat < ps.length) : getp ps i = some (ps.get ⟨i.toNat, h1⟩) := by
  unfold getp
  rw [dif_pos ⟨h0, h1⟩]

lemma getp_mem {ps : List Player} {i : Int} {cp : Player}
    (h : getp ps i = some cp) : cp ∈ ps := by
  obtain ⟨h0, h1⟩ := getp_some_bounds h
  rw [← getp_some_get h h1]
  exact List.get_mem ps i.toNat h1

/-! ## Lemmas about `aliveCount`, `isGameOver`, `findWinnerIndex` -/

lemma aliveCount_cons (p : Player) (ps : List Player) :
    aliveCount (p :: ps) = (if 0 < p.remainingTime then 1 else 0) + aliveCount ps := by
  by_cases h : 0 < p.remainingTime <;>
    simp [aliveCount, List.filter_cons, h, Nat.add_comm]

lemma aliveCount_set_le (ps : List Player) :
    ∀ (k : Nat) (q : Player), aliveCount ps ≤ aliveCount (ps.set k q) + 1 := by
  induction ps with
  | nil => intro k q; simp [aliveCount]
  | cons p t ih =>
    intro k q
    cases k with
    | zero =>
      rw [List.set_cons_zero, aliveCount_cons, aliveCount_cons]
      by_cases h1 : 0 < p.remainingTime <;> by_cases h2 : 0 < q.remainingTime <;>
        simp [h1, h2] <;> omega
    | succ n =>
      rw [List.set_cons_succ, aliveCount_cons, aliveCount_cons]
      have := ih n q
      omega

lemma aliveCount_append (ps qs : List Player) :
    aliveCount (ps ++ qs) = aliveCount ps + aliveCount qs := by
  simp [aliveCount, List.filter_append]

lemma aliveCount_map_preserve (f : Player → Player)
    (hf : ∀ p, (f p).remainingTime = p.remainingTime) (ps : List Player) :
    aliveCount (ps.map f) = aliveCount ps := by
  induction ps with
  | nil => rfl
  | cons p t ih =>
    rw [List.map_cons, aliveCount_cons, aliveCount_cons, hf, ih]

lemma isGameOver_iff {gs : GameState} : isGameOver gs = true ↔ aliveCount gs.players ≤ 1 := by
  simp [isGameOver, aliveCount]

lemma isGameOver_eq_false {gs : GameState} :
    isGameOver gs = false ↔ 2 ≤ aliveCount gs.players := by
  rw [← Bool.not_eq_true, isGameOver_iff]
  omega

lemma findIndexJS_bounds (pred : Player → Bool) (ps : List Player)
    (h : ∃ p ∈ ps, pred p = true) :
    0 ≤ findIndexJS pred ps ∧ findIndexJS pred ps < (ps.length : Int) := by
  induction ps with
  | nil => simp at h
  | cons p t ih =>
    by_cases hc : pred p = true
    · simp only [findIndexJS, hc, if_true, List.length_cons, eq_self_iff_true]
      constructor
      · exact le_refl 0
      · push_cast
        omega
    · have ht : ∃ q ∈ t, pred q = true := by
        rcases h with ⟨q, hq, hqp⟩
        rcases List.mem_cons.mp hq with rfl | hmem
        · exact absurd hqp hc
        · exact ⟨q, hmem, hqp⟩
      obtain ⟨h0, h1⟩ := ih ht
      have hne : findIndexJS pred t ≠ -1 := by omega
      simp only [findIndexJS, hc, if_false, hne, if_neg, List.length_cons,
        Bool.false_eq_true]
      push_cast
      omega

lemma exists_alive (ps : List Player) (h : 1 ≤ aliveCount ps) :
    ∃ p ∈ ps, 0 < p.remainingTime := by
  unfold aliveCount at h
  have hne : (ps.filter fun p => decide (0 < p.remainingTime)) ≠ [] := by
    intro hc
    rw [hc] at h
    simp at h
  obtain ⟨q, hq⟩ := List.exists_mem_of_ne_nil _ hne
  have hmf := List.mem_filter.mp hq
  exact ⟨q, hmf.1, by simpa using hmf.2⟩

lemma findWinnerIndex_bounds (ps : List Player) (h : 1 ≤ aliveCount ps) :
    0 ≤ findWinnerIndex ps ∧ findWinnerIndex ps < (ps.length : Int) := by
  obtain ⟨p, hm, hp⟩ := exists_alive ps h
  exact findIndexJS_bounds _ ps ⟨p, hm, decide_eq_true (by omega : (1:Int) ≤ p.remainingTime)⟩

/-! ## Inversion lemmas for `updateCurrentPlayerTime` -/

lemma update_not_running {gs : GameState} {now : Int} (h : gs.running = false) :
    updateCurrentPlayerTime gs now = some gs := by
  simp [updateCurrentPlayerTime, h]

lemma update_some_running {gs gs1 : GameState} {now : Int}
    (hr : gs.running = true) (e : updateCurrentPlayerTime gs now = some gs1) :
    ∃ cp, getp gs.players gs.currentPlayerIndex = some cp ∧
      gs1.players = gs.players.set gs.currentPlayerIndex.toNat
        { cp with remainingTime := max 0 (cp.remainingTime - (now - gs.lastTickTimestamp)) } ∧
      gs1.lastTickTimestamp = now ∧
      gs1.running = true ∧ gs1.timeLimit = gs.timeLimit ∧ gs1.windex = gs.windex ∧
      ((max 0 (cp.remainingTime - (now - gs.lastTickTimestamp)) = 0 ∧
          gs1.currentPlayerIndex = (gs.currentPlayerIndex + 1) % (gs.players.length : Int)) ∨
        (0 < max 0 (cp.remainingTime - (now - gs.lastTickTimestamp)) ∧
          gs1.currentPlayerIndex = gs.currentPlayerIndex)) := by
  unfold updateCurrentPlayerTime at e
  rw [hr] at e
  rw [if_neg (by simp)] at e
  cases hg : getp gs.players gs.currentPlayerIndex with
  | none => rw [hg] at e; exact absurd e (by simp)
  | some cp =>
    rw [hg] at e
    dsimp only at e
    refine ⟨cp, rfl, ?_⟩
    by_cases hz : max 0 (cp.remainingTime - (now - gs.lastTickTimestamp)) ≤ 0
    · rw [if_pos hz] at e
      have hz0 : max 0 (cp.remainingTime - (now - gs.lastTickTimestamp)) = 0 := by
        have := le_max_left 0 (cp.remainingTime - (now - gs.lastTickTimestamp))
        omega
      cases e
      refine ⟨rfl, rfl, hr ▸ rfl, rfl, rfl, Or.inl ⟨hz0, ?_⟩⟩
      simp [List.length_set]
    · rw [if_neg hz] at e
      cases e
      exact ⟨rfl, rfl, hr ▸ rfl, rfl, rfl, Or.inr ⟨by omega, rfl⟩⟩

lemma update_some_fields {gs gs1 : GameState} {now : Int}
    (e : updateCurrentPlayerTime gs now = some gs1) :
    gs1.running = gs.running ∧ gs1.timeLimit = gs.timeLimit ∧
    gs1.windex = gs.windex ∧ gs1.players.length = gs.players.length := by
  by_cases hr : gs.running = true
  · obtain ⟨cp, _, hp, _, hrun, htl, hw, _⟩ := update_some_running hr e
    exact ⟨by rw [hrun, hr], htl, hw, by rw [hp, List.length_set]⟩
  · have hf : gs.running = false := by simpa using hr
    rw [update_not_running hf] at e
    cases e
    exact ⟨rfl, rfl, rfl, rfl⟩

lemma update_cpi_valid {gs gs1 : GameState} {now : Int}
    (h0 : 0 ≤ gs.currentPlayerIndex)
    (h1 : gs.currentPlayerIndex < (gs.players.length : Int))
    (e : updateCurrentPlayerTime gs now = some gs1) :
    0 ≤ gs1.currentPlayerIndex ∧ gs1.currentPlayerIndex < (gs1.players.length : Int) := by
  by_cases hr : gs.running = true
  · obtain ⟨cp, _, hp, _, _, _, _, hd⟩ := update_some_running hr e
    have hlen : gs1.players.length = gs.players.length := by rw [hp, List.length_set]
    have hpos : (0:Int) < (gs.players.length : Int) := by omega
    rcases hd with ⟨_, hc⟩ | ⟨_, hc⟩
    · rw [hc, hlen]
      exact ⟨Int.emod_nonneg _ (ne_of_gt hpos), Int.emod_lt_of_pos _ hpos⟩
    · rw [hc, hlen]
      exact ⟨h0, h1⟩
  · have hf : gs.running = false := by simpa using hr
    rw [update_not_running hf] at e
    cases e
    exact ⟨h0, h1⟩

lemma update_alive_le {gs gs1 : GameState} {now : Int}
    (e : updateCurrentPlayerTime gs now = some gs1) :
    aliveCount gs.players ≤ aliveCount gs1.players + 1 := by
  by_cases hr : gs.running = true
  · obtain ⟨cp, _, hp, _⟩ := update_some_running hr e
    rw [hp]
    exact aliveCount_set_le gs.players _ _
  · have hf : gs.running = false := by simpa using hr
    rw [update_not_running hf] at e
    cases e
    omega

lemma update_nonneg {gs gs1 : GameState} {now : Int}
    (h : ∀ p ∈ gs.players, 0 ≤ p.remainingTime)
    (e : updateCurrentPlayerTime gs now = some gs1) :
    ∀ p ∈ gs1.players, 0 ≤ p.remainingTime := by
  by_cases hr : gs.running = true
  · obtain ⟨cp, _, hp, _⟩ := update_some_running hr e
    intro p hpmem
    rw [hp] at hpmem
    rcases listMemSet _ _ _ _ hpmem with hold | hnew
    · exact h p hold
    · rw [hnew]
      exact le_max_left _ _
  · have hf : gs.running = false := by simpa using hr
    rw [update_not_running hf] at e
    cases e
    exact h

/-! ## Inversion lemmas for `handleTap` and `tapBranch` -/

lemma handleTap_some_inv {gs gs2 : GameState} {pid : String} {now : Int}
    (e : handleTap gs pid now = some gs2) :
    ∃ gs1, updateCurrentPlayerTime gs now = some gs1 ∧
      ((gs1.running = false ∧
          gs2 = { gs1 with running := true, windex := -1, lastTickTimestamp := now }) ∨
        (gs1.running = true ∧ ∃ cp,
          getp gs1.players gs1.currentPlayerIndex = some cp ∧
          ((cp.id = pid ∧ gs2 = { gs1 with
              currentPlayerIndex := (gs1.currentPlayerIndex + 1) % ((gs1.players.length : Int))
              lastTickTimestamp := now }) ∨
            (¬ cp.id = pid ∧ gs2 = gs1)))) := by
  unfold handleTap at e
  cases hu : updateCurrentPlayerTime gs now with
  | none => rw [hu] at e; exact absurd e (by simp)
  | some gs1 =>
    rw [hu] at e
    dsimp only at e
    refine ⟨gs1, rfl, ?_⟩
    by_cases hr : gs1.running = false
    · rw [if_pos hr] at e
      cases e
      exact Or.inl ⟨hr, rfl⟩
    · rw [if_neg hr] at e
      have hr2 : gs1.running = true := by simpa using hr
      cases hg : getp gs1.players gs1.currentPlayerIndex with
      | none => rw [hg] at e; exact absurd e (by simp)
      | some cp =>
        rw [hg] at e
        dsimp only at e
        by_cases hid : cp.id = pid
        · rw [if_pos hid] at e
          cases e
          exact Or.inr ⟨hr2, cp, rfl, Or.inl ⟨hid, rfl⟩⟩
        · rw [if_neg hid] at e
          cases e
          exact Or.inr ⟨hr2, cp, rfl, Or.inr ⟨hid, rfl⟩⟩

lemma tapBranch_some_inv {gs gs2 : GameState} {pid : String} {now : Int}
    (e : tapBranch gs pid now = some gs2) :
    ∃ gs1, handleTap gs pid now = some gs1 ∧
      gs2 = (if isGameOver gs1 = true then { gs1 with running := false } else gs1) := by
  unfold tapBranch at e
  cases hh : handleTap gs pid now with
  | none => rw [hh] at e; exact absurd e (by simp)
  | some gs1 =>
    rw [hh] at e
    dsimp only at e
    exact ⟨gs1, rfl, (Option.some.inj e).symm⟩

/-! ## Preservation of the state invariant -/

lemma rotate_valid {ps : List Player} (h : ps ≠ []) (i : Int) :
    0 ≤ (i + 1) % (ps.length : Int) ∧ (i + 1) % (ps.length : Int) < (ps.length : Int) := by
  have hpos : (0:Int) < (ps.length : Int) := by
    have := List.length_pos.mpr h
    exact_mod_cast this
  exact ⟨Int.emod_nonneg _ (ne_of_gt hpos), Int.emod_lt_of_pos _ hpos⟩

lemma stateInv_base (now : Int) (name pid : String) :
    StateInv (joinApply (createGameState TIME_LIMIT now) name pid) := by
  simp only [joinApply, createGameState, List.any_nil, List.map_nil, List.nil_append,
    if_false, Bool.false_eq_true]
  refine ⟨by simp, by norm_num, by norm_num, fun _ => rfl⟩

lemma stateInv_join {gs : GameState} (h : StateInv gs) (name pid : String) :
    StateInv (joinApply gs name pid) := by
  obtain ⟨hne, h0, h1, hov⟩ := h
  have hrt : ∀ p : Player,
      ((fun p => if p.name == name then { p with id := pid } else p) p).remainingTime
        = p.remainingTime := by
    intro p
    by_cases hn : p.name == name <;> simp [hn]
  simp only [joinApply]
  by_cases hf : (gs.players.any fun p => p.name == name) = true
  · rw [if_pos hf]
    refine ⟨by simpa using hne, h0, by simpa using h1, ?_⟩
    intro hov2
    have ha : aliveCount (gs.players.map fun p =>
        if p.name == name then { p with id := pid } else p) ≤ 1 := by
      simpa [isGameOver_iff, aliveCount] using isGameOver_iff.mp hov2
    rw [aliveCount_map_preserve _ hrt] at ha
    exact hov (isGameOver_iff.mpr ha)
  · rw [if_neg hf]
    refine ⟨by simp, h0, ?_, ?_⟩
    · simp only [List.length_append, List.length_map, List.length_cons, List.length_nil]
      push_cast
      omega
    · intro hov2
      have ha := isGameOver_iff.mp hov2
      simp only [aliveCount_append, aliveCount_map_preserve _ hrt] at ha
      have hone : aliveCount [{ id := pid, name := name, remainingTime := TIME_LIMIT }] = 1 := by
        rw [aliveCount_cons]
        norm_num [aliveCount, TIME_LIMIT]
      rw [hone] at ha
      exact hov (isGameOver_iff.mpr (by omega))

lemma stateInv_reset {gs : GameState} (h : StateInv gs) : StateInv (resetBranch gs) := by
  obtain ⟨hne, h0, h1, _⟩ := h
  exact ⟨by simpa [resetBranch] using hne, h0, by simpa [resetBranch] using h1, fun _ => rfl⟩

lemma stateInv_changeTime {gs : GameState} (h : StateInv gs) (t : Int) :
    StateInv (changeTimeBranch gs t) := by
  obtain ⟨hne, h0, h1, _⟩ := h
  exact ⟨by simpa [changeTimeBranch] using hne, h0,
    by simpa [changeTimeBranch] using h1, fun _ => rfl⟩

lemma length_pos_ne_nil {ps : List Player} (h : 0 < ps.length) : ps ≠ [] := by
  intro hc
  rw [hc] at h
  simp at h

lemma stateInv_tick {gs gs2 : GameState} {now : Int} (h : StateInv gs)
    (e : tickRoom gs now = some gs2) : StateInv gs2 := by
  obtain ⟨hne, h0, h1, hov⟩ := h
  unfold tickRoom at e
  by_cases hr : gs.running = true
  · rw [if_pos hr] at e
    cases hu : updateCurrentPlayerTime gs now with
    | none => rw [hu] at e; exact absurd e (by simp)
    | some gs1 =>
      rw [hu] at e
      dsimp only at e
      have hlen1 : gs1.players.length = gs.players.length := (update_some_fields hu).2.2.2
      have hne1 : gs1.players ≠ [] := by
        refine length_pos_ne_nil ?_
        rw [hlen1]
        exact List.length_pos.mpr hne
      have hvalid := update_cpi_valid h0 h1 hu
      by_cases hov1 : isGameOver gs1 = true
      · rw [if_pos hov1] at e
        cases e
        have hgsfalse : isGameOver gs = false := by
          cases hgo : isGameOver gs with
          | false => rfl
          | true => rw [hov hgo] at hr; cases hr
        have halive : 2 ≤ aliveCount gs.players := isGameOver_eq_false.mp hgsfalse
        have halive1 : 1 ≤ aliveCount gs1.players := by
          have := update_alive_le hu
          omega
        obtain ⟨hw0, hw1⟩ := findWinnerIndex_bounds gs1.players halive1
        exact ⟨hne1, hw0, hw1, fun _ => rfl⟩
      · rw [if_neg hov1] at e
        cases e
        exact ⟨hne1, hvalid.1, hvalid.2, fun hc => absurd hc hov1⟩
  · rw [if_neg hr] at e
    cases e
    exact ⟨hne, h0, h1, hov⟩

lemma stateInv_tap {gs gs2 : GameState} {pid : String} {now : Int} (h : StateInv gs)
    (e : tapBranch gs pid now = some gs2) : StateInv gs2 := by
  obtain ⟨hne, h0, h1, _⟩ := h
  obtain ⟨gs1, hh, hgs2⟩ := tapBranch_some_inv e
  obtain ⟨u, hu, hcase⟩ := handleTap_some_inv hh
  have hlenu : u.players.length = gs.players.length := (update_some_fields hu).2.2.2
  have hneu : u.players ≠ [] := by
    refine length_pos_ne_nil ?_
    rw [hlenu]
    exact List.length_pos.mpr hne
  have hvalidu := update_cpi_valid h0 h1 hu
  have hparts : gs1.players = u.players ∧ 0 ≤ gs1.currentPlayerIndex ∧
      gs1.currentPlayerIndex < (gs1.players.length : Int) := by
    rcases hcase with ⟨_, rfl⟩ | ⟨_, cp, hg, hsub⟩
    · exact ⟨rfl, hvalidu.1, hvalidu.2⟩
    · rcases hsub with ⟨_, rfl⟩ | ⟨_, rfl⟩
      · exact ⟨rfl, (rotate_valid hneu u.currentPlayerIndex).1,
          (rotate_valid hneu u.currentPlayerIndex).2⟩
      · exact ⟨rfl, hvalidu.1, hvalidu.2⟩
  obtain ⟨hp1, hc0, hc1⟩ := hparts
  have hne2 : gs1.players ≠ [] := by rw [hp1]; exact hneu
  by_cases hov1 : isGameOver gs1 = true
  · rw [if_pos hov1] at hgs2
    rw [hgs2]
    exact ⟨hne2, hc0, hc1, fun _ => rfl⟩
  · rw [if_neg hov1] at hgs2
    rw [hgs2]
    exact ⟨hne2, hc0, hc1, fun hc => absurd hc hov1⟩

/-- Every reachable game state satisfies the state invariant. -/
lemma reachable_inv {gs : GameState} (h : Reachable gs) : StateInv gs := by
  induction h with
  | create now name pid => exact stateInv_base now name pid
  | join name pid _ ih => exact stateInv_join ih name pid
  | tap _ e ih => exact stateInv_tap ih e
  | reset _ ih => exact stateInv_reset ih
  | changeTime t _ ih => exact stateInv_changeTime ih t
  | tick _ e ih => exact stateInv_tick ih e

lemma listMapSetGetSelf {α β : Type} (f : α → β) (l : List α) (k : Nat) (h : k < l.length) :
    (l.map f).set k (f (l.get ⟨k, h⟩)) = l.map f := by
  have h2 : k < (l.map f).length := by simpa using h
  have hv : f (l.get ⟨k, h⟩) = (l.map f).get ⟨k, h2⟩ := by simp
  rw [hv, listSetGetSelf]

/-! ## Claim C1 -/

/-- Claim C1: `advance(now)` (`updateCurrentPlayerTime`) is a no-op when the
clock is not running; otherwise, on a state whose current player index is in
range, it replaces the current player's remaining time by
`max 0 (remainingTime - (now - lastTickTimestamp))` (the elapsed-time
deduction floored at zero), leaves every other player's time and all ids,
names, `running`, `timeLimit` and `windex` unchanged, stamps
`lastTickTimestamp = now`, and advances `currentPlayerIndex` to
`(currentPlayerIndex + 1) % playerCount` exactly when the new remaining
time is zero. -/
theorem advance_behavior_spec (gs : GameState) (now : Int)
    (h0 : 0 ≤ gs.currentPlayerIndex)
    (h1 : gs.currentPlayerIndex.toNat < gs.players.length) :
    (gs.running = false → updateCurrentPlayerTime gs now = some gs) ∧
    (gs.running = true →
      ∃ gs1 cp, getp gs.players gs.currentPlayerIndex = some cp ∧
        updateCurrentPlayerTime gs now = some gs1 ∧
        gs1.lastTickTimestamp = now ∧
        gs1.running = true ∧ gs1.timeLimit = gs.timeLimit ∧ gs1.windex = gs.windex ∧
        gs1.players.map Player.remainingTime =
          (gs.players.map Player.remainingTime).set gs.currentPlayerIndex.toNat
            (max 0 (cp.remainingTime - (now - gs.lastTickTimestamp))) ∧
        gs1.players.map (fun p => (p.id, p.name)) =
          gs.players.map (fun p => (p.id, p.name)) ∧
        (max 0 (cp.remainingTime - (now - gs.lastTickTimestamp)) = 0 →
          gs1.currentPlayerIndex = (gs.currentPlayerIndex + 1) % (gs.players.length : Int)) ∧
        (max 0 (cp.remainingTime - (now - gs.lastTickTimestamp)) ≠ 0 →
          gs1.currentPlayerIndex = gs.currentPlayerIndex)) := by
  have hg := getp_of_bounds h0 h1
  refine ⟨fun hf => update_not_running hf, fun hr => ?_⟩
  unfold updateCurrentPlayerTime
  rw [hr, if_neg (by simp), hg]
  dsimp only
  by_cases hz : max 0 ((gs.players.get ⟨gs.currentPlayerIndex.toNat, h1⟩).remainingTime -
      (now - gs.lastTickTimestamp)) ≤ 0
  · rw [if_pos hz]
    have hzero : max 0 ((gs.players.get ⟨gs.currentPlayerIndex.toNat, h1⟩).remainingTime -
        (now - gs.lastTickTimestamp)) = 0 := by
      have := le_max_left 0 ((gs.players.get ⟨gs.currentPlayerIndex.toNat, h1⟩).remainingTime -
        (now - gs.lastTickTimestamp))
      omega
    refine ⟨_, _, rfl, rfl, rfl, rfl, rfl, rfl, ?_, ?_, ?_, ?_⟩
    · rw [listMapSet]
    · rw [listMapSet]
      exact listMapSetGetSelf _ _ _ h1
    · intro _
      rw [List.length_set]
    · intro hne
      exact absurd hzero hne
  · rw [if_neg hz]
    refine ⟨_, _, rfl, rfl, rfl, rfl, rfl, rfl, ?_, ?_, ?_, ?_⟩
    · rw [listMapSet]
    · rw [listMapSet]
      exact listMapSetGetSelf _ _ _ h1
    · intro hzz
      rw [hzz] at hz
      exact absurd (le_refl 0) hz
    · intro _
      rfl

/-- Witness for C1 at a concrete running two-player state. -/
theorem advance_behavior_spec_witness :
    (stTwoLive.running = false → updateCurrentPlayerTime stTwoLive 1000 = some stTwoLive) ∧
    (stTwoLive.running = true →
      ∃ gs1 cp, getp stTwoLive.players stTwoLive.currentPlayerIndex = some cp ∧
        updateCurrentPlayerTime stTwoLive 1000 = some gs1 ∧
        gs1.lastTickTimestamp = 1000 ∧
        gs1.running = true ∧ gs1.timeLimit = stTwoLive.timeLimit ∧
        gs1.windex = stTwoLive.windex ∧
        gs1.players.map Player.remainingTime =
          (stTwoLive.players.map Player.remainingTime).set stTwoLive.currentPlayerIndex.toNat
            (max 0 (cp.remainingTime - (1000 - stTwoLive.lastTickTimestamp))) ∧
        gs1.players.map (fun p => (p.id, p.name)) =
          stTwoLive.players.map (fun p => (p.id, p.name)) ∧
        (max 0 (cp.remainingTime - (1000 - stTwoLive.lastTickTimestamp)) = 0 →
          gs1.currentPlayerIndex =
            (stTwoLive.currentPlayerIndex + 1) % (stTwoLive.players.length : Int)) ∧
        (max 0 (cp.remainingTime - (1000 - stTwoLive.lastTickTimestamp)) ≠ 0 →
          gs1.currentPlayerIndex = stTwoLive.currentPlayerIndex)) :=
  advance_behavior_spec stTwoLive 1000 (by decide) (by decide)

/-! ## Claim C9 -/

lemma map_rt_set (ps : List Player) (k : Nat) (cp : Player) (r : Int) :
    (ps.set k { cp with remainingTime := r }).map Player.remainingTime
      = (ps.map Player.remainingTime).set k r := by
  rw [listMapSet]

/-- Claim C9 is false as stated ("for every game state"): states holding a
negative remaining time are reachable (`changeTime(-1)`, then joins and a
tap that keeps the clock running), and there a second `advance` at the
same `now` is not free of effect — the first call rotates the turn onto
the negative player and the second call clamps that player's time from
-1 up to 0. -/
theorem advance_idempotent_counterexample :
    Reachable stNegRun ∧
    ∃ gs1 gs2,
      updateCurrentPlayerTime stNegRun 5 = some gs1 ∧
      updateCurrentPlayerTime gs1 5 = some gs2 ∧
      gs1.players.map Player.remainingTime = [0, -1, 72000, 72000] ∧
      gs2.players.map Player.remainingTime = [0, 0, 72000, 72000] := by
  constructor
  · have h4 : Reachable (joinApply (joinApply (changeTimeBranch
        (joinApply (joinApply (createGameState TIME_LIMIT 0) "a" "pa") "b" "pb") (-1))
        "c" "pc") "d" "pd") :=
      Reachable.join "d" "pd" (Reachable.join "c" "pc"
        (Reachable.changeTime (-1)
          (Reachable.join "b" "pb" (Reachable.create 0 "a" "pa"))))
    have htap : tapBranch (joinApply (joinApply (changeTimeBranch
        (joinApply (joinApply (createGameState TIME_LIMIT 0) "a" "pa") "b" "pb") (-1))
        "c" "pc") "d" "pd") "pa" 5 = some stNegRun := by decide
    exact Reachable.tap h4 htap
  · exact ⟨⟨[⟨"pa", "a", 0⟩, ⟨"pb", "b", -1⟩, ⟨"pc", "c", 72000⟩, ⟨"pd", "d", 72000⟩],
        1, 5, true, -1, -1⟩,
      ⟨[⟨"pa", "a", 0⟩, ⟨"pb", "b", 0⟩, ⟨"pc", "c", 72000⟩, ⟨"pd", "d", 72000⟩],
        2, 5, true, -1, -1⟩,
      by decide, by decide, by decide, by decide⟩

/-- Claim C9 amended: calling `advance(now)` twice with the same `now`
deducts no additional time on the second call, provided every player's
remaining time is nonnegative (the data model's declared range for
`remainingTime`): the remaining times after the second call equal those
after the first.  Without that proviso a second call can clamp a
reachable negative time up to zero, per the counterexample. -/
theorem advance_idempotent (gs : GameState) (now : Int)
    (h : ∀ p ∈ gs.players, 0 ≤ p.remainingTime)
    (gs1 gs2 : GameState)
    (e1 : updateCurrentPlayerTime gs now = some gs1)
    (e2 : updateCurrentPlayerTime gs1 now = some gs2) :
    gs2.players.map Player.remainingTime = gs1.players.map Player.remainingTime := by
  by_cases hr : gs.running = true
  · obtain ⟨cp, hg, hp1, hlt1, hrun1, _⟩ := update_some_running hr e1
    obtain ⟨cp1, hg1, hp2, _⟩ := update_some_running hrun1 e2
    rw [hlt1] at hp2
    have hcp1mem : cp1 ∈ gs1.players := getp_mem hg1
    have hnn : 0 ≤ cp1.remainingTime := update_nonneg h e1 cp1 hcp1mem
    have hmax : max 0 (cp1.remainingTime - (now - now)) = cp1.remainingTime := by
      rw [sub_self, sub_zero]
      exact max_eq_right hnn
    obtain ⟨hb0, hb1⟩ := getp_some_bounds hg1
    have hget := getp_some_get hg1 hb1
    rw [hp2, map_rt_set, hmax, ← hget]
    exact listMapSetGetSelf Player.remainingTime gs1.players _ hb1
  · have hf : gs.running = false := by simpa using hr
    rw [update_not_running hf] at e1
    cases e1
    rw [update_not_running hf] at e2
    cases e2
    rfl

/-- Witness for C9: a second advance at the same instant changes no
remaining time. -/
theorem advance_idempotent_witness :
    ∃ gs1 gs2, updateCurrentPlayerTime stTwoLive 1000 = some gs1 ∧
      updateCurrentPlayerTime gs1 1000 = some gs2 ∧
      gs2.players.map Player.remainingTime = gs1.players.map Player.remainingTime := by
  refine ⟨⟨[⟨"pa", "a", 71000⟩, ⟨"pb", "b", 72000⟩], 0, 1000, true, 72000, -1⟩,
    ⟨[⟨"pa", "a", 71000⟩, ⟨"pb", "b", 72000⟩], 0, 1000, true, 72000, -1⟩,
    by decide, by decide, ?_⟩
  exact advance_idempotent stTwoLive 1000 (by decide) _ _ (by decide) (by decide)

/-! ## Claim C3 -/

/-- Claim C3: in every reachable game state with a non-empty player list,
`currentPlayerIndex` is a valid index into the player list; reachability
is closed under every handler, including the tick sweep's game-over
transition, so all operations preserve this. -/
theorem currentPlayerIndex_valid (gs : GameState) (h : Reachable gs)
    (_hne : gs.players ≠ []) :
    0 ≤ gs.currentPlayerIndex ∧ gs.currentPlayerIndex < (gs.players.length : Int) := by
  obtain ⟨_, h0, h1, _⟩ := reachable_inv h
  exact ⟨h0, h1⟩

/-- Witness for C3 at the state created by the first join. -/
theorem currentPlayerIndex_valid_witness :
    0 ≤ stJoinBase.currentPlayerIndex ∧
      stJoinBase.currentPlayerIndex < (stJoinBase.players.length : Int) :=
  currentPlayerIndex_valid stJoinBase (Reachable.create 0 "a" "p1") (by decide)

/-! ## Claim C8 -/

/-- Claim C8: in every reachable state, a finished game (`isGameOver`) has
a stopped clock — so every broadcast of an over state already shows
`running = false`; and whenever the tick sweep ends with the game over,
the state it broadcasts has `running = false` and `windex` recording
`findWinnerIndex` — the first index in turn order with at least 1 ms
remaining (equivalently positive integral remaining time), `-1` when
none. -/
theorem over_stopped_before_broadcast (gs : GameState) (now : Int) (gs2 : GameState) :
    (Reachable gs → isGameOver gs = true → gs.running = false) ∧
    (gs.running = true → tickRoom gs now = some gs2 → isGameOver gs2 = true →
      gs2.running = false ∧ gs2.windex = findWinnerIndex gs2.players) := by
  constructor
  · intro h hov
    exact (reachable_inv h).2.2.2 hov
  · intro hr e hov2
    unfold tickRoom at e
    rw [if_pos hr] at e
    cases hu : updateCurrentPlayerTime gs now with
    | none => rw [hu] at e; exact absurd e (by simp)
    | some gs1 =>
      rw [hu] at e
      dsimp only at e
      by_cases hov1 : isGameOver gs1 = true
      · rw [if_pos hov1] at e
        cases e
        exact ⟨rfl, rfl⟩
      · rw [if_neg hov1] at e
        cases e
        exact absurd hov2 hov1

/-- Witness for C8: the just-created one-player room (over, stopped), and
a concrete tick transition that finishes the game with the winner
recorded. -/
theorem over_stopped_before_broadcast_witness :
    stJoinBase.running = false ∧
    ((⟨[⟨"pa", "a", 0⟩, ⟨"pb", "b", 100⟩], 1, 10, false, 72000, 1⟩ : GameState).running = false ∧
      (⟨[⟨"pa", "a", 0⟩, ⟨"pb", "b", 100⟩], 1, 10, false, 72000, 1⟩ : GameState).windex =
        findWinnerIndex (⟨[⟨"pa", "a", 0⟩, ⟨"pb", "b", 100⟩], 1, 10, false, 72000, 1⟩ :
          GameState).players) := by
  constructor
  · exact (over_stopped_before_broadcast stJoinBase 0 stJoinBase).1
      (Reachable.create 0 "a" "p1") (by decide)
  · exact (over_stopped_before_broadcast stNearOver 10
      ⟨[⟨"pa", "a", 0⟩, ⟨"pb", "b", 100⟩], 1, 10, false, 72000, 1⟩).2
      (by decide) (by decide) (by decide)

/-! ## Claim C10 -/

/-- Claim C10: when the tap message branch completes, a state in which at
most one player has positive remaining time has `running = false`; in
particular the first tap in a room with zero or one live players leaves
the clock stopped when the handler returns. -/
theorem tap_leaves_over_stopped (gs gs2 : GameState) (pid : String) (now : Int)
    (e : tapBranch gs pid now = some gs2)
    (hov : aliveCount gs2.players ≤ 1) :
    gs2.running = false := by
  obtain ⟨gs1, hh, hgs2⟩ := tapBranch_some_inv e
  by_cases hov1 : isGameOver gs1 = true
  · rw [if_pos hov1] at hgs2
    rw [hgs2]
  · rw [if_neg hov1] at hgs2
    have h2 : 2 ≤ aliveCount gs1.players :=
      isGameOver_eq_false.mp (by simpa using hov1)
    rw [hgs2] at hov
    omega

/-- Witness for C10: the first tap in a one-player room starts and then
immediately stops the clock. -/
theorem tap_leaves_over_stopped_witness :
    ∃ gs2, tapBranch stIdleOne "pa" 5 = some gs2 ∧ gs2.running = false := by
  refine ⟨⟨[⟨"pa", "a", 72000⟩], 0, 5, false, 72000, -1⟩, by decide, ?_⟩
  exact tap_leaves_over_stopped stIdleOne _ "pa" 5 (by decide) (by decide)

/-! ## Claim C2 -/

/-- Claim C2 is false as stated: `changeTime` installs any requested
limit, so a negative limit drives every remaining time negative.  Starting
from a state whose times are all nonnegative, `changeTimeBranch` with
limit `-1` produces a player with remaining time `-1 < 0`. -/
theorem remainingTime_nonneg_counterexample :
    (∀ p ∈ stIdleOne.players, 0 ≤ p.remainingTime) ∧
    ¬ (∀ p ∈ (changeTimeBranch stIdleOne (-1)).players, 0 ≤ p.remainingTime) := by
  decide

/-- Claim C2 amended: the advance, join and tap operations map states with
all remaining times nonnegative to states with all remaining times
nonnegative; reset does so provided the room's `timeLimit` is
nonnegative; and `changeTime(newLimit)` does so provided the new limit is
nonnegative (a negative `newLimit` violates it, per the
counterexample). -/
theorem remainingTime_nonneg_amended (gs : GameState) (now : Int)
    (name pid : String) (t : Int)
    (h : ∀ p ∈ gs.players, 0 ≤ p.remainingTime) :
    (∀ gs1, updateCurrentPlayerTime gs now = some gs1 →
      ∀ p ∈ gs1.players, 0 ≤ p.remainingTime) ∧
    (∀ p ∈ (joinApply gs name pid).players, 0 ≤ p.remainingTime) ∧
    (∀ gs2, tapBranch gs pid now = some gs2 → ∀ p ∈ gs2.players, 0 ≤ p.remainingTime) ∧
    (0 ≤ gs.timeLimit → ∀ p ∈ (resetBranch gs).players, 0 ≤ p.remainingTime) ∧
    (0 ≤ t → ∀ p ∈ (changeTimeBranch gs t).players, 0 ≤ p.remainingTime) := by
  refine ⟨fun gs1 e => update_nonneg h e, ?_, ?_, ?_, ?_⟩
  · intro p hp
    simp only [joinApply] at hp
    by_cases hf : (gs.players.any fun q => q.name == name) = true
    · rw [if_pos hf] at hp
      dsimp only at hp
      obtain ⟨q, hq, rfl⟩ := List.mem_map.mp hp
      by_cases hn : q.name == name
      · simpa [hn] using h q hq
      · simpa [hn] using h q hq
    · rw [if_neg hf] at hp
      dsimp only at hp
      rcases List.mem_append.mp hp with hp2 | hp2
      · obtain ⟨q, hq, rfl⟩ := List.mem_map.mp hp2
        by_cases hn : q.name == name
        · simpa [hn] using h q hq
        · simpa [hn] using h q hq
      · have hp3 : p = { id := pid, name := name, remainingTime := TIME_LIMIT } := by
          simpa using hp2
        rw [hp3]
        norm_num [TIME_LIMIT]
  · intro gs2 e p hp
    obtain ⟨gs1, hh, hgs2⟩ := tapBranch_some_inv e
    obtain ⟨u, hu, hcase⟩ := handleTap_some_inv hh
    have hu_nn := update_nonneg h hu
    have hplayers : gs2.players = u.players := by
      rcases hcase with ⟨_, rfl⟩ | ⟨_, cp, _, hsub⟩
      · rw [hgs2]
        split <;> rfl
      · rcases hsub with ⟨_, rfl⟩ | ⟨_, rfl⟩ <;> (rw [hgs2]; split <;> rfl)
    rw [hplayers] at hp
    exact hu_nn p hp
  · intro ht p hp
    obtain ⟨q, _, rfl⟩ := List.mem_map.mp hp
    simpa using ht
  · intro ht p hp
    obtain ⟨q, _, rfl⟩ := List.mem_map.mp hp
    simpa using ht

/-- Witness for the amended C2 at a concrete one-player state. -/
theorem remainingTime_nonneg_amended_witness :
    (∀ gs1, updateCurrentPlayerTime stIdleOne 5 = some gs1 →
      ∀ p ∈ gs1.players, 0 ≤ p.remainingTime) ∧
    (∀ p ∈ (joinApply stIdleOne "b" "pb").players, 0 ≤ p.remainingTime) ∧
    (∀ gs2, tapBranch stIdleOne "pb" 5 = some gs2 →
      ∀ p ∈ gs2.players, 0 ≤ p.remainingTime) ∧
    (0 ≤ stIdleOne.timeLimit → ∀ p ∈ (resetBranch stIdleOne).players, 0 ≤ p.remainingTime) ∧
    (0 ≤ (100:Int) → ∀ p ∈ (changeTimeBranch stIdleOne 100).players, 0 ≤ p.remainingTime) :=
  remainingTime_nonneg_amended stIdleOne 5 "b" "pb" 100 (by decide)

/-! ## Claim C4 -/

lemma map_rt_rebind (ps : List Player) (name pid : String) :
    ((ps.map fun p => if p.name == name then { p with id := pid } else p).map
      Player.remainingTime) = ps.map Player.remainingTime := by
  induction ps with
  | nil => rfl
  | cons p t ih =>
    simp only [List.map_cons, ih]
    congr 1
    by_cases hn : p.name == name <;> simp [hn]

/-- Claim C4 is false as stated: the reset handler does not first call
`advance(now)`.  On a running two-player room with 1000 ms owed, the
handler's result differs from the spec's settle-then-reset composite
(the former leaves `lastTickTimestamp` at 0, the latter stamps 1000). -/
theorem settle_before_acting_counterexample :
    some (resetBranch stTwoLive) ≠ resetSettleFirst stTwoLive 1000 := by
  decide

/-- Claim C4 amended: of the four operations only `tap` settles owed time
first (`handleTap` opens with `updateCurrentPlayerTime`, so its result
carries the settled remaining times and `lastTickTimestamp = now`); the
join, reset and changeTime branches act directly without settling — they
leave `lastTickTimestamp` untouched, and join leaves every existing
remaining time untouched. -/
theorem settle_before_acting_amended (gs : GameState) (now : Int)
    (name pid : String) (t : Int) :
    ((joinApply gs name pid).lastTickTimestamp = gs.lastTickTimestamp ∧
      ((joinApply gs name pid).players.map Player.remainingTime).take gs.players.length =
        gs.players.map Player.remainingTime) ∧
    (resetBranch gs).lastTickTimestamp = gs.lastTickTimestamp ∧
    (changeTimeBranch gs t).lastTickTimestamp = gs.lastTickTimestamp ∧
    (gs.running = true → ∀ gs1 gs2, updateCurrentPlayerTime gs now = some gs1 →
      handleTap gs pid now = some gs2 →
      gs2.players.map Player.remainingTime = gs1.players.map Player.remainingTime ∧
      gs2.lastTickTimestamp = now) := by
  refine ⟨⟨?_, ?_⟩, rfl, rfl, ?_⟩
  · simp only [joinApply]
    split <;> rfl
  · simp only [joinApply]
    split
    · rw [map_rt_rebind, ← List.length_map gs.players Player.remainingTime, List.take_length]
    · dsimp only
      rw [List.map_append, map_rt_rebind,
        ← List.length_map gs.players Player.remainingTime, List.take_left]
  · intro hr gs1 gs2 hu hh
    obtain ⟨u, hu2, hcase⟩ := handleTap_some_inv hh
    rw [hu] at hu2
    cases hu2
    have hlt : gs1.lastTickTimestamp = now := by
      obtain ⟨_, _, _, hl, _⟩ := update_some_running hr hu
      exact hl
    rcases hcase with ⟨_, rfl⟩ | ⟨_, cp, _, hsub⟩
    · exact ⟨rfl, rfl⟩
    · rcases hsub with ⟨_, rfl⟩ | ⟨_, rfl⟩
      · exact ⟨rfl, rfl⟩
      · exact ⟨rfl, hlt⟩

/-- Witness for the amended C4: reset and join leave `lastTickTimestamp`
at 0 while a tap at instant 1000 stamps it. -/
theorem settle_before_acting_amended_witness :
    (joinApply stTwoLive "c" "pc").lastTickTimestamp = 0 ∧
    (resetBranch stTwoLive).lastTickTimestamp = 0 ∧
    ∃ gs2, handleTap stTwoLive "pb" 1000 = some gs2 ∧ gs2.lastTickTimestamp = 1000 := by
  have h := settle_before_acting_amended stTwoLive 1000 "c" "pb" 100
  refine ⟨h.1.1, h.2.1, ⟨[⟨"pa", "a", 71000⟩, ⟨"pb", "b", 72000⟩], 0, 1000, true, 72000, -1⟩,
    by decide, ?_⟩
  exact (h.2.2.2 rfl
    ⟨[⟨"pa", "a", 71000⟩, ⟨"pb", "b", 72000⟩], 0, 1000, true, 72000, -1⟩
    ⟨[⟨"pa", "a", 71000⟩, ⟨"pb", "b", 72000⟩], 0, 1000, true, 72000, -1⟩
    (by decide) (by decide)).2

/-! ## Claim C5 -/

lemma map_pair_rebind (ps : List Player) (name pid : String) :
    ((ps.map fun p => if p.name == name then { p with id := pid } else p).map
      fun p => (p.name, p.remainingTime)) = ps.map fun p => (p.name, p.remainingTime) := by
  induction ps with
  | nil => rfl
  | cons p t ih =>
    simp only [List.map_cons, ih]
    congr 1
    by_cases hn : p.name == name <;> simp [hn]

lemma map_id_rebind (ps : List Player) (name pid : String) :
    ((ps.map fun p => if p.name == name then { p with id := pid } else p).map Player.id)
      = ps.map fun p => if p.name == name then pid else p.id := by
  induction ps with
  | nil => rfl
  | cons p t ih =>
    simp only [List.map_cons, ih]
    congr 1
    by_cases hn : p.name == name <;> simp [hn]

/-- Claim C5 is false as stated: a join of an unknown name appends the
player with the server default `TIME_LIMIT` (72000 ms), not the room's
`timeLimit`.  In a room whose limit was changed to 5000 ms, joining "b"
appends a player at 72000 ms, so the resulting times are not the old
times extended by the room's `timeLimit`. -/
theorem join_remainingTime_counterexample :
    stLimitChanged.timeLimit = 5000 ∧
    (stLimitChanged.players.any fun p => p.name == "b") = false ∧
    getp (joinApply stLimitChanged "b" "p2").players 1 = some ⟨"p2", "b", 72000⟩ ∧
    ¬ ((joinApply stLimitChanged "b" "p2").players.map Player.remainingTime =
        stLimitChanged.players.map Player.remainingTime ++ [stLimitChanged.timeLimit]) := by
  decide

/-- Claim C5 amended: joining an unknown name appends a player whose
remaining time is the server-wide default `TIME_LIMIT` (72000 ms), which
equals the room's `timeLimit` only until a `changeTime`; joining an
existing name rebinds only the id of the player(s) of that name, and no
name, remaining time, position, turn order, or other room field
changes. -/
theorem join_behavior_amended (gs : GameState) (name pid : String) :
    ((gs.players.any fun p => p.name == name) = false →
      (joinApply gs name pid).players =
        gs.players ++ [{ id := pid, name := name, remainingTime := TIME_LIMIT }]) ∧
    ((gs.players.any fun p => p.name == name) = true →
      (joinApply gs name pid).players.map (fun p => (p.name, p.remainingTime)) =
        gs.players.map (fun p => (p.name, p.remainingTime)) ∧
      (joinApply gs name pid).players.map Player.id =
        gs.players.map fun p => if p.name == name then pid else p.id) ∧
    (joinApply gs name pid).currentPlayerIndex = gs.currentPlayerIndex ∧
    (joinApply gs name pid).running = gs.running ∧
    (joinApply gs name pid).timeLimit = gs.timeLimit ∧
    (joinApply gs name pid).windex = gs.windex ∧
    (joinApply gs name pid).lastTickTimestamp = gs.lastTickTimestamp := by
  refine ⟨?_, ?_, ?_, ?_, ?_, ?_, ?_⟩
  · intro hf
    have hid : ∀ p ∈ gs.players,
        (if p.name == name then { p with id := pid } else p) = p := by
      intro p hp
      have hcon : ¬ (p.name == name) = true := by
        intro hc
        have htrue : (gs.players.any fun p => p.name == name) = true :=
          List.any_eq_true.mpr ⟨p, hp, hc⟩
        rw [htrue] at hf
        cases hf
      simp [hcon]
    simp only [joinApply, hf, Bool.false_eq_true, if_false]
    rw [listMapEqSelf _ _ hid]
  · intro hf
    simp only [joinApply, hf, if_true]
    exact ⟨map_pair_rebind gs.players name pid, map_id_rebind gs.players name pid⟩
  all_goals simp only [joinApply]
  all_goals split <;> rfl

/-- Witness for the amended C5: the append path at a changed limit and
the rebind path on the creating join's room. -/
theorem join_behavior_amended_witness :
    (joinApply stLimitChanged "b" "p2").players =
      stLimitChanged.players ++ [{ id := "p2", name := "b", remainingTime := TIME_LIMIT }] ∧
    (joinApply stJoinBase "a" "p9").players.map Player.id =
      stJoinBase.players.map fun p => if p.name == "a" then "p9" else p.id := by
  constructor
  · exact (join_behavior_amended stLimitChanged "b" "p2").1 (by decide)
  · exact ((join_behavior_amended stJoinBase "a" "p9").2.1 (by decide)).2

/-! ## Claim C6 -/

/-- Claim C6 is false as stated: an out-of-turn tap is not a complete
no-op, because `handleTap` settles owed elapsed time first.  On a running
room with 1000 ms owed, a tap carrying the non-current player's id still
deducts those 1000 ms from the current player. -/
theorem out_of_turn_tap_counterexample :
    stTwoLive.running = true ∧
    (getp stTwoLive.players stTwoLive.currentPlayerIndex).map Player.id = some "pa" ∧
    (handleTap stTwoLive "pb" 1000).map (fun g => g.players.map Player.remainingTime)
      ≠ some (stTwoLive.players.map Player.remainingTime) := by
  decide

/-- Claim C6 amended: on a running clock, a tap whose player id differs
from the id of the post-settlement current player performs exactly the
time settlement `advance(now)` and nothing else — in particular it is a
complete no-op when no time is owed — and it produces no error reply
(the handler's only response is the regular broadcast). -/
theorem out_of_turn_tap_amended (gs : GameState) (pid : String) (now : Int)
    (hr : gs.running = true) (gs1 : GameState)
    (hu : updateCurrentPlayerTime gs now = some gs1)
    (cp : Player) (hg : getp gs1.players gs1.currentPlayerIndex = some cp)
    (hid : cp.id ≠ pid) :
    handleTap gs pid now = some gs1 := by
  unfold handleTap
  rw [hu]
  dsimp only
  have hr1 : gs1.running = true := by rw [(update_some_fields hu).1, hr]
  rw [if_neg (by rw [hr1]; simp), hg]
  dsimp only
  rw [if_neg hid]

/-- Witness for the amended C6: the out-of-turn tap equals the settlement
alone at a concrete running state. -/
theorem out_of_turn_tap_amended_witness :
    handleTap stTwoLive "pb" 1000 =
      some ⟨[⟨"pa", "a", 71000⟩, ⟨"pb", "b", 72000⟩], 0, 1000, true, 72000, -1⟩ :=
  out_of_turn_tap_amended stTwoLive "pb" 1000 (by decide) _ (by decide)
    ⟨"pa", "a", 71000⟩ (by decide) (by decide)

/-! ## Claim C7 -/

/-- Claim C7 is false as stated: with zero players, `advance` on a running
state faults (the JS code dereferences `undefined`) instead of returning
without mutating, and a tap on an idle zero-player state mutates the state
(it starts the clock) instead of being a no-op. -/
theorem zero_players_counterexample :
    updateCurrentPlayerTime stEmptyRun 5 = none ∧
    handleTap stEmptyIdle "x" 5 ≠ some stEmptyIdle := by
  decide

/-- Claim C7 amended: a reachable room always has at least one player, so
the zero-player case cannot be observed; on a zero-player state with a
stopped clock — the only way such a room ever exists — `advance` is
indeed a no-op, while a tap starts the clock (mutating `running`,
`windex` and `lastTickTimestamp`) rather than returning without
mutation; on a (unreachable) running zero-player state `advance` faults
rather than no-ops. -/
theorem zero_players_amended (gs : GameState) (now : Int) (pid : String) :
    (Reachable gs → gs.players ≠ []) ∧
    (gs.players = [] → gs.running = false →
      updateCurrentPlayerTime gs now = some gs ∧
      handleTap gs pid now =
        some { gs with running := true, windex := -1, lastTickTimestamp := now }) := by
  constructor
  · intro h
    exact (reachable_inv h).1
  · intro _ hstop
    have hupd : updateCurrentPlayerTime gs now = some gs := update_not_running hstop
    refine ⟨hupd, ?_⟩
    unfold handleTap
    rw [hupd]
    dsimp only
    rw [if_pos hstop]

/-- Witness for the amended C7: nonemptiness of a reachable room, and the
concrete behavior of advance and tap on the empty idle state. -/
theorem zero_players_amended_witness :
    stJoinBase.players ≠ [] ∧
    updateCurrentPlayerTime stEmptyIdle 5 = some stEmptyIdle ∧
    handleTap stEmptyIdle "x" 5 =
      some { stEmptyIdle with running := true, windex := -1, lastTickTimestamp := 5 } := by
  refine ⟨(zero_players_amended stJoinBase 5 "x").1 (Reachable.create 0 "a" "p1"), ?_, ?_⟩
  · exact ((zero_players_amended stEmptyIdle 5 "x").2 rfl rfl).1
  · exact ((zero_players_amended stEmptyIdle 5 "x").2 rfl rfl).2
